import Mathlib

/-!
Verification development for the Explore Repository node
(`src/nodes/ExploreRepository/ExploreRepository.node.ts`).

The TypeScript source is shallowly embedded: paths are strings over the
POSIX separator `/` (the module uses `path.sep` on a POSIX host), the
filesystem is a finite immutable tree (`FSNode`), machine integers are
`Nat` (the source only ever uses small nonnegative counts), and fallible
code returns `Except String`.  `fs.Stats` timestamps, symbolic links and
permission failures are not modelled (no claim depends on them); the
locale-aware `localeCompare` is modelled as code-point lexicographic
comparison; external `grep` process invocation is modelled by an oracle
outcome (`GrepOutcome`) fed to the exact output-handling code.
-/

/-! ## Character-level string utilities (JS `String.prototype` semantics) -/

/-- Split a character list at every occurrence of `sep`; JS `String.split`
semantics: the empty string yields one empty segment, and a trailing
separator yields a trailing empty segment. -/
def splitOnChar (sep : Char) : List Char → List (List Char)
  | [] => [[]]
  | c :: rest =>
    match splitOnChar sep rest with
    | [] => [[c]]
    | seg :: segs => if c = sep then [] :: seg :: segs else (c :: seg) :: segs

/-- `strStartsWith a b` models JS `a.startsWith(b)`. -/
def strStartsWith (a b : String) : Bool := b.data.isPrefixOf a.data

/-- Code-point lexicographic comparison of character lists (the model of
`localeCompare(a, b) <= 0`). -/
def charListLe : List Char → List Char → Bool
  | [], _ => true
  | _ :: _, [] => false
  | a :: as, b :: bs =>
    if a.toNat < b.toNat then true
    else if b.toNat < a.toNat then false
    else charListLe as bs

/-- `strLe a b` models `a.localeCompare(b) <= 0` (code-point order). -/
def strLe (a b : String) : Bool := charListLe a.data b.data

/-! ## PathSandbox: `path.resolve` and `validatePath` -/

/-- One step of lexical path normalization: push a normal segment, skip
empty and `.` segments, pop on `..` (a `..` at the root is dropped, as
`path.resolve` does for absolute paths).  The stack is kept reversed. -/
def normStep (stack : List (List Char)) (seg : List Char) : List (List Char) :=
  if seg = [] || seg = ['.'] then stack
  else if seg = ['.', '.'] then stack.tail
  else seg :: stack

/-- Lexical normalization of an absolute path string: collapse `.` and
`..` segments and duplicate separators.  Models `path.resolve(p)` for an
absolute `p` (the source always resolves the root before use). -/
def normalizeAbs (p : String) : String :=
  let segs := ((splitOnChar '/' p.data).foldl normStep []).reverse
  "/" ++ String.intercalate "/" (segs.map fun cs => String.mk cs)

/-- Models `path.resolve(root, rel)` for an absolute `root`: an absolute
`rel` wins outright, otherwise `rel` is joined to `root`; the result is
lexically normalized.  Purely lexical: no filesystem argument. -/
def resolvePath (root rel : String) : String :=
  match rel.data with
  | '/' :: _ => normalizeAbs rel
  | _ => normalizeAbs (root ++ "/" ++ rel)

/-- The error message thrown by `validatePath` (source lines 22-26). -/
def pathTraversalMsg (relativePath resolved resolvedRoot : String) : String :=
  "Path traversal detected - access denied. " ++
  "Attempted path: \"" ++ relativePath ++ "\" resolved to \"" ++ resolved ++ "\". " ++
  "Path must be relative and within root: \"" ++ resolvedRoot ++ "\""

/-- Embedding of `validatePath` (source lines 17-30): resolve the root,
resolve the relative path against it, and reject unless the result equals
the resolved root or extends it past a separator.  Throwing is modelled
by `Except.error`; the function takes no filesystem argument, so the
check happens before any filesystem access. -/
def validatePath (rootPath relativePath : String) : Except String String :=
  let resolvedRoot := normalizeAbs rootPath
  let resolved := resolvePath resolvedRoot relativePath
  if !strStartsWith resolved (resolvedRoot ++ "/") && resolved != resolvedRoot then
    Except.error (pathTraversalMsg relativePath resolved resolvedRoot)
  else
    Except.ok resolved

/-- C1: `validatePath` succeeds returning the lexically resolved path iff
that resolution equals the resolved root or has the resolved root plus
the path separator as a prefix; otherwise it fails with the
path-traversal error.  The check is purely lexical (the function takes
no filesystem argument). -/
theorem validatePath_spec (rootPath relativePath : String) :
    (validatePath rootPath relativePath =
        Except.ok (resolvePath (normalizeAbs rootPath) relativePath) ↔
      (resolvePath (normalizeAbs rootPath) relativePath = normalizeAbs rootPath ∨
        strStartsWith (resolvePath (normalizeAbs rootPath) relativePath)
          (normalizeAbs rootPath ++ "/") = true)) ∧
    (validatePath rootPath relativePath =
        Except.error (pathTraversalMsg relativePath
          (resolvePath (normalizeAbs rootPath) relativePath) (normalizeAbs rootPath)) ↔
      ¬(resolvePath (normalizeAbs rootPath) relativePath = normalizeAbs rootPath ∨
        strStartsWith (resolvePath (normalizeAbs rootPath) relativePath)
          (normalizeAbs rootPath ++ "/") = true)) := by
  unfold validatePath
  by_cases h1 : strStartsWith (resolvePath (normalizeAbs rootPath) relativePath)
      (normalizeAbs rootPath ++ "/") = true
  · simp [h1]
  · by_cases h2 : resolvePath (normalizeAbs rootPath) relativePath = normalizeAbs rootPath
    · simp [h1, h2]
    · simp [h1, h2]

/-- Concrete instances of `validatePath_spec`: `..`, an absolute path
supplied as relative input, and mixed traversal all fail with the
traversal error; `.` and a nested relative path succeed. -/
theorem validatePath_spec_witness :
    validatePath "/repo" "src/../../etc/passwd" =
      Except.error (pathTraversalMsg "src/../../etc/passwd" "/etc/passwd" "/repo") ∧
    validatePath "/repo" ".." = Except.error (pathTraversalMsg ".." "/" "/repo") ∧
    validatePath "/repo" "/etc/passwd" =
      Except.error (pathTraversalMsg "/etc/passwd" "/etc/passwd" "/repo") ∧
    validatePath "/repo" "." = Except.ok "/repo" ∧
    validatePath "/repo" "src/deep/file.ts" = Except.ok "/repo/src/deep/file.ts" := by
  refine ⟨?_, ?_, ?_, ?_, ?_⟩
  · have h := (validatePath_spec "/repo" "src/../../etc/passwd").2
    have e1 : resolvePath (normalizeAbs "/repo") "src/../../etc/passwd" = "/etc/passwd" := by decide
    have e2 : normalizeAbs "/repo" = "/repo" := by decide
    rw [e1, e2] at h
    exact h.mpr (by decide)
  · have h := (validatePath_spec "/repo" "..").2
    have e1 : resolvePath (normalizeAbs "/repo") ".." = "/" := by decide
    have e2 : normalizeAbs "/repo" = "/repo" := by decide
    rw [e1, e2] at h
    exact h.mpr (by decide)
  · have h := (validatePath_spec "/repo" "/etc/passwd").2
    have e1 : resolvePath (normalizeAbs "/repo") "/etc/passwd" = "/etc/passwd" := by decide
    have e2 : normalizeAbs "/repo" = "/repo" := by decide
    rw [e1, e2] at h
    exact h.mpr (by decide)
  · have h := (validatePath_spec "/repo" ".").1
    have e1 : resolvePath (normalizeAbs "/repo") "." = "/repo" := by decide
    have e2 : normalizeAbs "/repo" = "/repo" := by decide
    rw [e1, e2] at h
    exact h.mpr (by decide)
  · have h := (validatePath_spec "/repo" "src/deep/file.ts").1
    have e1 : resolvePath (normalizeAbs "/repo") "src/deep/file.ts" = "/repo/src/deep/file.ts" := by
      decide
    have e2 : normalizeAbs "/repo" = "/repo" := by decide
    rw [e1, e2] at h
    exact h.mpr (by decide)

/-! ## GlobMatcher: `globToRegex` and JS regex matching -/

/-- One token of the regex produced by `globToRegex`: a literal character
(everything the source escapes, plus ordinary characters), `.` (from
`?`), or `.*` (from `*`). -/
inductive GTok where
  | lit (c : Char)
  | anyc
  | star
deriving Repr, DecidableEq

/-- JS line terminators, which `.` in a regex without the `s` flag never
matches. -/
def isLineTerm (c : Char) : Bool :=
  c = '\n' || c = '\r' || c.val = 0x2028 || c.val = 0x2029

/-- Case-insensitive character comparison, the model of matching a
literal pattern character under the regex `i` flag. -/
def charEqCI (a b : Char) : Bool := a.toLower = b.toLower

/-- Embedding of `globToRegex` (source lines 150-156): regex
metacharacters are escaped into literals, `*` becomes `.*`, `?` becomes
`.`; the `^...$` anchoring and the `i` flag are part of the matcher
(`matchTok`). -/
def globToRegex (glob : String) : List GTok :=
  glob.data.map fun c =>
    if c = '*' then GTok.star else if c = '?' then GTok.anyc else GTok.lit c

/-- Matching of the compiled token list against a whole string: the
semantics of `RegExp('^' ++ pattern ++ '$', 'i').test`, with `.` not
matching line terminators (JS semantics without the `s` flag). -/
def matchTok : List GTok → List Char → Bool
  | [], [] => true
  | [], _ :: _ => false
  | GTok.lit _ :: _, [] => false
  | GTok.lit c0 :: p, c :: s => charEqCI c0 c && matchTok p s
  | GTok.anyc :: _, [] => false
  | GTok.anyc :: p, c :: s => !isLineTerm c && matchTok p s
  | GTok.star :: p, [] => matchTok p []
  | GTok.star :: p, c :: s => matchTok p (c :: s) || (!isLineTerm c && matchTok (GTok.star :: p) s)
termination_by p s => (s.length, p.length)

/-- `regexTest r name` models `r.test(name)` for the anchored
case-insensitive regex produced by `globToRegex`. -/
def regexTest (r : List GTok) (name : String) : Bool := matchTok r name.data

/-- The glob predicate the node actually applies to a file name. -/
def globMatch (glob name : String) : Bool := regexTest (globToRegex glob) name

/-- Declarative matching relation for the compiled pattern: the exact
JS semantics (`*` consumes any run of non-line-terminator characters,
`?` exactly one, literals compare case-insensitively). -/
inductive GMatch : List GTok → List Char → Prop
  | nil : GMatch [] []
  | lit {c0 c : Char} {p : List GTok} {s : List Char} :
      charEqCI c0 c = true → GMatch p s → GMatch (GTok.lit c0 :: p) (c :: s)
  | anyc {c : Char} {p : List GTok} {s : List Char} :
      isLineTerm c = false → GMatch p s → GMatch (GTok.anyc :: p) (c :: s)
  | star_skip {p : List GTok} {s : List Char} :
      GMatch p s → GMatch (GTok.star :: p) s
  | star_cons {c : Char} {p : List GTok} {s : List Char} :
      isLineTerm c = false → GMatch (GTok.star :: p) s → GMatch (GTok.star :: p) (c :: s)

/-- Matching as the specification describes it: identical to `GMatch`
except that `*` and `?` match arbitrary characters ("zero or more of any
character" / "exactly one character"), with no line-terminator
exception.  Executable, for comparison against the code's matcher. -/
def matchTokSpecWords : List GTok → List Char → Bool
  | [], [] => true
  | [], _ :: _ => false
  | GTok.lit _ :: _, [] => false
  | GTok.lit c0 :: p, c :: s => charEqCI c0 c && matchTokSpecWords p s
  | GTok.anyc :: _, [] => false
  | GTok.anyc :: p, _ :: s => matchTokSpecWords p s
  | GTok.star :: p, [] => matchTokSpecWords p []
  | GTok.star :: p, c :: s =>
      matchTokSpecWords p (c :: s) || matchTokSpecWords (GTok.star :: p) s
termination_by p s => (s.length, p.length)

/-- The glob predicate as the specification words it. -/
def specGlobMatch (glob name : String) : Bool :=
  matchTokSpecWords (globToRegex glob) name.data

/-- The executable matcher agrees with the declarative JS matching
relation on every pattern and input. -/
theorem matchTok_iff (s : List Char) (p : List GTok) :
    matchTok p s = true ↔ GMatch p s := by
  induction s generalizing p with
  | nil =>
    induction p with
    | nil =>
      constructor
      · intro _; exact GMatch.nil
      · intro _; simp [matchTok]
    | cons t p ihp =>
      cases t with
      | lit c0 =>
        simp only [matchTok]
        constructor
        · intro h; cases h
        · intro h; cases h
      | anyc =>
        simp only [matchTok]
        constructor
        · intro h; cases h
        · intro h; cases h
      | star =>
        simp only [matchTok]
        rw [ihp]
        constructor
        · exact fun h => GMatch.star_skip h
        · intro h
          cases h with
          | star_skip h => exact h
  | cons c s ihs =>
    induction p with
    | nil =>
      simp only [matchTok]
      constructor
      · intro h; cases h
      · intro h; cases h
    | cons t p ihp =>
      cases t with
      | lit c0 =>
        simp only [matchTok, Bool.and_eq_true, ihs]
        constructor
        · intro h; exact GMatch.lit h.1 h.2
        · intro h
          cases h with
          | lit h1 h2 => exact ⟨h1, h2⟩
      | anyc =>
        simp only [matchTok, Bool.and_eq_true, Bool.not_eq_true', ihs]
        constructor
        · intro h; exact GMatch.anyc h.1 h.2
        · intro h
          cases h with
          | anyc h1 h2 => exact ⟨h1, h2⟩
      | star =>
        simp only [matchTok, Bool.or_eq_true, Bool.and_eq_true, Bool.not_eq_true', ihp, ihs]
        constructor
        · intro h
          rcases h with h | ⟨h1, h2⟩
          · exact GMatch.star_skip h
          · exact GMatch.star_cons h1 h2
        · intro h
          cases h with
          | star_skip h => exact Or.inl h
          | star_cons h1 h2 => exact Or.inr ⟨h1, h2⟩

/-- A single `*` matches any string of non-line-terminator characters. -/
theorem gmatch_star_of_all (s : List Char) (h : ∀ c ∈ s, isLineTerm c = false) :
    GMatch [GTok.star] s := by
  induction s with
  | nil => exact GMatch.star_skip GMatch.nil
  | cons c s ih =>
    exact GMatch.star_cons (h c (List.mem_cons_self c s))
      (ih fun d hd => h d (List.mem_cons_of_mem c hd))

/-- C4 (amended): the compiled glob predicate matches iff the entire name
matches the pattern case-insensitively where `*` matches zero or more
non-line-terminator characters, `?` matches exactly one
non-line-terminator character, and every other character is a literal;
the default pattern `*` matches every name containing no line
terminator. -/
theorem glob_semantics (glob name : String) :
    (globMatch glob name = true ↔ GMatch (globToRegex glob) name.data) ∧
    (name.data.all (fun c => !isLineTerm c) = true → globMatch "*" name = true) := by
  constructor
  · exact matchTok_iff name.data (globToRegex glob)
  · intro h
    have hall : ∀ c ∈ name.data, isLineTerm c = false := by
      intro c hc
      have := List.all_eq_true.mp h c hc
      simpa using this
    have hg : globToRegex "*" = [GTok.star] := by decide
    have := (matchTok_iff name.data (globToRegex "*")).mpr
    exact this (by rw [hg]; exact gmatch_star_of_all name.data hall)

/-- Instance of `glob_semantics`: a line-terminator-free name is matched
by the default pattern. -/
theorem glob_semantics_witness : globMatch "*" "Button.ts" = true :=
  (glob_semantics "*" "Button.ts").2 (by decide)

/-- C4 counterexample: the claim says `*` matches zero or more of ANY
character and that the default pattern `*` matches every name, but the
JS regex `.` never matches a line terminator, so a file name containing
a newline is rejected by the code's predicate while the specification's
predicate accepts it. -/
theorem glob_newline_counterexample :
    specGlobMatch "*" "a\nb" = true ∧ globMatch "*" "a\nb" = false := by
  have hn : isLineTerm '\n' = true := by decide
  have ha : isLineTerm 'a' = false := by decide
  constructor
  · show matchTokSpecWords (globToRegex "*") "a\nb".data = true
    have hg : globToRegex "*" = [GTok.star] := by decide
    have hd : "a\nb".data = ['a', '\n', 'b'] := by decide
    rw [hg, hd]
    simp [matchTokSpecWords]
  · show matchTok (globToRegex "*") "a\nb".data = false
    have hg : globToRegex "*" = [GTok.star] := by decide
    have hd : "a\nb".data = ['a', '\n', 'b'] := by decide
    rw [hg, hd]
    simp [matchTok, hn, ha]

/-! ## Filesystem model and the DirectoryWalker ordering -/

/-- A filesystem subtree: a file with its text content, or a directory
with its children in the order `readdirSync` returns them (the model
captures that on-disk order; the source never sorts it unless noted). -/
inductive FSNode where
  | file (content : String)
  | dir (children : List (String × FSNode))

/-- `isDirectory()` of a directory entry. -/
def FSNode.isDir : FSNode → Bool
  | FSNode.dir _ => true
  | FSNode.file _ => false

/-- Stable insertion of `x` into a sorted list: `x` is placed before the
first element it compares `le` to, so ties keep their original order. -/
def insertLE (le : α → α → Bool) (x : α) : List α → List α
  | [] => [x]
  | y :: ys => if le x y then x :: y :: ys else y :: insertLE le x ys

/-- Stable sort by a boolean total preorder; models JS
`Array.prototype.sort` (stable per ES2019) with a comparator. -/
def sortLE (le : α → α → Bool) : List α → List α
  | [] => []
  | x :: xs => insertLE le x (sortLE le xs)

/-- The comparator of `buildTree` (source lines 83-87): directories
first, then `localeCompare` on names, as a boolean `compare <= 0`. -/
def entryLE (a b : String × FSNode) : Bool :=
  if a.2.isDir && !b.2.isDir then true
  else if !a.2.isDir && b.2.isDir then false
  else strLe a.1 b.1

/-- The hidden-entry/ignore filter of `buildTree` (source line 90). -/
def keepEntry (e : String × FSNode) : Bool :=
  !strStartsWith e.1 "." && e.1 != "node_modules"

/-- The per-level entry processing of `buildTree`: sort (directories
first, then names ascending), then drop hidden entries and
`node_modules` (source lines 83-90, in that order). -/
def processEntries (l : List (String × FSNode)) : List (String × FSNode) :=
  (sortLE entryLE l).filter keepEntry

/-! ## TreeBuilder -/

/-- The rendering loop of `buildTree` (source lines 92-106), with the
remaining depth budget `d = maxDepth - currentDepth` as fuel: the last
entry gets the `└── ` connector and a four-space continuation, others
`├── ` and `│   `; a directory recurses into its processed children only
while the budget is positive (source: `currentDepth < maxDepth`).
Read failures (`[Permission denied]`) are not modelled: the model
filesystem is always readable. -/
def renderEntries : Nat → List (String × FSNode) → String → List String
  | _, [], _ => []
  | d, e :: rest, pfx =>
    let connector := if rest.isEmpty then "└── " else "├── "
    let childPfx := if rest.isEmpty then "    " else "│   "
    match e.2 with
    | FSNode.file _ => (pfx ++ connector ++ e.1) :: renderEntries d rest pfx
    | FSNode.dir ch =>
      (pfx ++ connector ++ e.1 ++ "/") ::
        ((if 0 < d then renderEntries (d - 1) (processEntries ch) (pfx ++ childPfx) else []) ++
          renderEntries d rest pfx)
termination_by d l _ => (d, l.length)

/-- Embedding of `buildTree` (source lines 62-109): empty output beyond
the depth limit, otherwise the rendering loop over the sorted and
filtered entries, with depth budget `maxDepth - currentDepth`. -/
def buildTree (entries : List (String × FSNode)) (currentDepth maxDepth : Nat)
    (pfx : String) : List String :=
  if currentDepth > maxDepth then []
  else renderEntries (maxDepth - currentDepth) (processEntries entries) pfx

/-- Specification-side rendering of exactly one level: every processed
entry yields its own line and nothing is emitted for descendants. -/
def renderLevel : List (String × FSNode) → String → List String
  | [], _ => []
  | e :: rest, pfx =>
    let connector := if rest.isEmpty then "└── " else "├── "
    (match e.2 with
     | FSNode.dir _ => pfx ++ connector ++ e.1 ++ "/"
     | FSNode.file _ => pfx ++ connector ++ e.1) :: renderLevel rest pfx

/-- Specification-side rendering of two levels: each directory line is
followed by the one-level rendering of its own processed children
(children and grandchildren, nothing deeper). -/
def renderLevel2 : List (String × FSNode) → String → List String
  | [], _ => []
  | e :: rest, pfx =>
    let connector := if rest.isEmpty then "└── " else "├── "
    let childPfx := if rest.isEmpty then "    " else "│   "
    match e.2 with
    | FSNode.file _ => (pfx ++ connector ++ e.1) :: renderLevel2 rest pfx
    | FSNode.dir ch =>
      (pfx ++ connector ++ e.1 ++ "/") ::
        (renderLevel (processEntries ch) (pfx ++ childPfx) ++ renderLevel2 rest pfx)

mutual

/-- Truncation of a subtree to `k` levels of children below a node;
used to state that entries deeper than the depth budget never influence
the tree output. -/
def truncNode : Nat → FSNode → FSNode
  | _, FSNode.file c => FSNode.file c
  | 0, FSNode.dir _ => FSNode.dir []
  | k + 1, FSNode.dir ch => FSNode.dir (truncMap k ch)

/-- Truncation of every entry of a directory listing to `k` levels. -/
def truncMap : Nat → List (String × FSNode) → List (String × FSNode)
  | _, [] => []
  | k, (n, nd) :: rest => (n, truncNode k nd) :: truncMap k rest

end

/-! ## Ordering lemmas for the walker comparator -/

/-- Code-point comparison is total. -/
theorem charListLe_total : ∀ a b, charListLe a b = true ∨ charListLe b a = true := by
  intro a
  induction a with
  | nil => intro b; left; simp [charListLe]
  | cons x xs ih =>
    intro b
    cases b with
    | nil => right; simp [charListLe]
    | cons y ys =>
      simp only [charListLe]
      rcases Nat.lt_trichotomy x.toNat y.toNat with h | h | h
      · left; simp [h]
      · have h2 : ¬x.toNat < y.toNat := by omega
        have h3 : ¬y.toNat < x.toNat := by omega
        rcases ih ys with hh | hh
        · left; simp [h2, h3, hh]
        · right; simp [h2, h3, hh]
      · right; simp [h]

/-- Code-point comparison is transitive. -/
theorem charListLe_trans :
    ∀ a b c, charListLe a b = true → charListLe b c = true → charListLe a c = true := by
  intro a
  induction a with
  | nil => intro b c _ _; simp [charListLe]
  | cons x xs ih =>
    intro b c hab hbc
    cases b with
    | nil => simp [charListLe] at hab
    | cons y ys =>
      cases c with
      | nil => simp [charListLe] at hbc
      | cons z zs =>
        simp only [charListLe] at hab hbc ⊢
        have fab : x.toNat < y.toNat ∨ (x.toNat = y.toNat ∧ charListLe xs ys = true) := by
          by_cases h1 : x.toNat < y.toNat
          · exact Or.inl h1
          · by_cases h2 : y.toNat < x.toNat
            · simp [h1, h2] at hab
            · exact Or.inr ⟨by omega, by simpa [h1, h2] using hab⟩
        have fbc : y.toNat < z.toNat ∨ (y.toNat = z.toNat ∧ charListLe ys zs = true) := by
          by_cases h1 : y.toNat < z.toNat
          · exact Or.inl h1
          · by_cases h2 : z.toNat < y.toNat
            · simp [h1, h2] at hbc
            · exact Or.inr ⟨by omega, by simpa [h1, h2] using hbc⟩
        rcases fab with h | ⟨he, hr⟩ <;> rcases fbc with h2 | ⟨he2, hr2⟩
        · have hlt : x.toNat < z.toNat := by omega
          simp [hlt]
        · have hlt : x.toNat < z.toNat := by omega
          simp [hlt]
        · have hlt : x.toNat < z.toNat := by omega
          simp [hlt]
        · have h1 : ¬x.toNat < z.toNat := by omega
          have h2 : ¬z.toNat < x.toNat := by omega
          simp [h1, h2]
          exact ih ys zs hr hr2

/-- `strLe` is total. -/
theorem strLe_total (a b : String) : strLe a b = true ∨ strLe b a = true :=
  charListLe_total a.data b.data

/-- `strLe` is transitive. -/
theorem strLe_trans {a b c : String} (h1 : strLe a b = true) (h2 : strLe b c = true) :
    strLe a c = true :=
  charListLe_trans a.data b.data c.data h1 h2

/-- The tree comparator is total. -/
theorem entryLE_total (a b : String × FSNode) : entryLE a b = true ∨ entryLE b a = true := by
  cases ha : a.2.isDir <;> cases hb : b.2.isDir <;> simp [entryLE, ha, hb]
  · exact strLe_total a.1 b.1
  · exact strLe_total a.1 b.1

/-- The tree comparator is transitive. -/
theorem entryLE_trans {a b c : String × FSNode} (hab : entryLE a b = true)
    (hbc : entryLE b c = true) : entryLE a c = true := by
  cases ha : a.2.isDir <;> cases hb : b.2.isDir <;> cases hc : c.2.isDir <;>
    simp [entryLE, ha, hb, hc] at hab hbc ⊢
  · exact strLe_trans hab hbc
  · exact strLe_trans hab hbc

/-- Stable insertion permutes. -/
theorem insertLE_perm (le : α → α → Bool) (x : α) :
    ∀ l : List α, (insertLE le x l).Perm (x :: l) := by
  intro l
  induction l with
  | nil => exact List.Perm.refl _
  | cons y ys ih =>
    simp only [insertLE]
    by_cases h : le x y = true
    · rw [if_pos h]
    · rw [if_neg h]
      exact (ih.cons y).trans (List.Perm.swap x y ys)

/-- The stable sort permutes its input. -/
theorem sortLE_perm (le : α → α → Bool) : ∀ l : List α, (sortLE le l).Perm l := by
  intro l
  induction l with
  | nil => exact List.Perm.refl _
  | cons x xs ih =>
    exact (insertLE_perm le x (sortLE le xs)).trans (ih.cons x)

/-- Insertion into a sorted list stays sorted (given a total transitive
comparator). -/
theorem pairwise_insertLE (le : α → α → Bool)
    (htot : ∀ a b, le a b = true ∨ le b a = true)
    (htrans : ∀ a b c, le a b = true → le b c = true → le a c = true)
    (x : α) : ∀ l : List α, l.Pairwise (fun a b => le a b = true) →
    (insertLE le x l).Pairwise (fun a b => le a b = true) := by
  intro l
  induction l with
  | nil => intro _; simp [insertLE]
  | cons y ys ih =>
    intro h
    rcases List.pairwise_cons.mp h with ⟨hy, hys⟩
    simp only [insertLE]
    by_cases hxy : le x y = true
    · rw [if_pos hxy]
      refine List.pairwise_cons.mpr ⟨?_, h⟩
      intro z hz
      rcases List.mem_cons.mp hz with rfl | hz
      · exact hxy
      · exact htrans x y z hxy (hy z hz)
    · rw [if_neg hxy]
      refine List.pairwise_cons.mpr ⟨?_, ih hys⟩
      intro z hz
      have hz2 := (insertLE_perm le x ys).mem_iff.mp hz
      rcases List.mem_cons.mp hz2 with h3 | hz2
      · rcases htot z y with hh | hh
        · rw [h3] at hh
          exact absurd hh hxy
        · exact hh
      · exact hy z hz2

/-- The stable sort is sorted for a total transitive comparator. -/
theorem pairwise_sortLE (le : α → α → Bool)
    (htot : ∀ a b, le a b = true ∨ le b a = true)
    (htrans : ∀ a b c, le a b = true → le b c = true → le a c = true) :
    ∀ l : List α, (sortLE le l).Pairwise (fun a b => le a b = true) := by
  intro l
  induction l with
  | nil => simp [sortLE]
  | cons x xs ih => exact pairwise_insertLE le htot htrans x (sortLE le xs) ih

/-! ## Tree rendering lemmas -/

/-- Truncation preserves the entry kind. -/
theorem truncNode_isDir (k : Nat) (nd : FSNode) : (truncNode k nd).isDir = nd.isDir := by
  cases nd <;> cases k <;> simp [truncNode, FSNode.isDir]

/-- Truncation of a listing is a map over its entries. -/
theorem truncMap_eq_map (k : Nat) :
    ∀ l : List (String × FSNode), truncMap k l = l.map fun e => (e.1, truncNode k e.2) := by
  intro l
  induction l with
  | nil => simp [truncMap]
  | cons e rest ih =>
    obtain ⟨n, nd⟩ := e
    simp [truncMap, ih]

/-- Truncation preserves emptiness of a listing. -/
theorem truncMap_isEmpty (k : Nat) (l : List (String × FSNode)) :
    (truncMap k l).isEmpty = l.isEmpty := by
  cases l with
  | nil => rfl
  | cons e rest =>
    obtain ⟨n, nd⟩ := e
    simp [truncMap]

/-- The comparator ignores the truncated part of the subtrees. -/
theorem entryLE_trunc (k : Nat) (a b : String × FSNode) :
    entryLE (a.1, truncNode k a.2) (b.1, truncNode k b.2) = entryLE a b := by
  simp [entryLE, truncNode_isDir]

/-- Insertion commutes with truncating every element. -/
theorem insertLE_trunc (k : Nat) (x : String × FSNode) :
    ∀ l : List (String × FSNode),
      insertLE entryLE (x.1, truncNode k x.2) (l.map fun e => (e.1, truncNode k e.2)) =
        (insertLE entryLE x l).map fun e => (e.1, truncNode k e.2) := by
  intro l
  induction l with
  | nil => simp [insertLE]
  | cons y ys ih =>
    simp only [List.map_cons, insertLE, entryLE_trunc]
    by_cases h : entryLE x y = true
    · rw [if_pos h, if_pos h]
      simp
    · rw [if_neg h, if_neg h]
      simp [ih]

/-- Sorting commutes with truncating every element. -/
theorem sortLE_trunc (k : Nat) :
    ∀ l : List (String × FSNode),
      sortLE entryLE (l.map fun e => (e.1, truncNode k e.2)) =
        (sortLE entryLE l).map fun e => (e.1, truncNode k e.2) := by
  intro l
  induction l with
  | nil => simp [sortLE]
  | cons x xs ih =>
    simp only [List.map_cons, sortLE, ih]
    exact insertLE_trunc k x (sortLE entryLE xs)

/-- The hidden-entry filter commutes with truncating every element. -/
theorem filter_keep_trunc (k : Nat) :
    ∀ l : List (String × FSNode),
      (l.map fun e => (e.1, truncNode k e.2)).filter keepEntry =
        (l.filter keepEntry).map fun e => (e.1, truncNode k e.2) := by
  intro l
  induction l with
  | nil => simp
  | cons e rest ih =>
    have hk : keepEntry (e.1, truncNode k e.2) = keepEntry e := rfl
    by_cases h : keepEntry e = true
    · simp [List.filter_cons, hk, h, ih]
    · simp [List.filter_cons, hk, h, ih]

/-- Per-level processing commutes with truncation. -/
theorem processEntries_trunc (k : Nat) (l : List (String × FSNode)) :
    processEntries (truncMap k l) = truncMap k (processEntries l) := by
  rw [truncMap_eq_map, truncMap_eq_map]
  unfold processEntries
  rw [sortLE_trunc, filter_keep_trunc]

/-- The rendering loop only looks at the tree up to its depth budget:
truncating every subtree to the budget leaves the output unchanged. -/
theorem renderEntries_trunc :
    ∀ (d : Nat) (l : List (String × FSNode)) (pfx : String),
      renderEntries d (truncMap d l) pfx = renderEntries d l pfx := by
  intro d
  induction d with
  | zero =>
    intro l
    induction l with
    | nil => intro pfx; simp [truncMap]
    | cons e rest ih =>
      intro pfx
      obtain ⟨n, nd⟩ := e
      cases nd with
      | file c =>
        simp [truncMap, truncNode, renderEntries, ih]
        rw [truncMap_isEmpty]
      | dir ch =>
        simp [truncMap, truncNode, renderEntries, ih]
        rw [truncMap_isEmpty]
  | succ k ihd =>
    intro l
    induction l with
    | nil => intro pfx; simp [truncMap]
    | cons e rest ih =>
      intro pfx
      obtain ⟨n, nd⟩ := e
      cases nd with
      | file c =>
        simp [truncMap, truncNode, renderEntries, ih]
        rw [truncMap_isEmpty]
      | dir ch =>
        simp [truncMap, truncNode, renderEntries, ih, processEntries_trunc, ihd]
        rw [truncMap_isEmpty]
        exact ⟨rfl, rfl⟩

/-- Zero remaining budget renders exactly one level. -/
theorem renderEntries_zero :
    ∀ (l : List (String × FSNode)) (pfx : String),
      renderEntries 0 l pfx = renderLevel l pfx := by
  intro l
  induction l with
  | nil => intro pfx; simp [renderEntries, renderLevel]
  | cons e rest ih =>
    intro pfx
    obtain ⟨n, nd⟩ := e
    cases nd with
    | file c => simp [renderEntries, renderLevel, ih]
    | dir ch => simp [renderEntries, renderLevel, ih]

/-- Budget one renders children and grandchildren only. -/
theorem renderEntries_one :
    ∀ (l : List (String × FSNode)) (pfx : String),
      renderEntries 1 l pfx = renderLevel2 l pfx := by
  intro l
  induction l with
  | nil => intro pfx; simp [renderEntries, renderLevel2]
  | cons e rest ih =>
    intro pfx
    obtain ⟨n, nd⟩ := e
    cases nd with
    | file c => simp [renderEntries, renderLevel2, ih]
    | dir ch => simp [renderEntries, renderLevel2, ih, renderEntries_zero]

/-- The comparator implies the claim's ordering relation. -/
theorem entryLE_spec (a b : String × FSNode) (h : entryLE a b = true) :
    (b.2.isDir = true → a.2.isDir = true) ∧
      (a.2.isDir = b.2.isDir → strLe a.1 b.1 = true) := by
  cases ha : a.2.isDir <;> cases hb : b.2.isDir <;>
    simp [entryLE, ha, hb] at h ⊢ <;> exact h

/-- C6: the tree built with `maxDepth = 1` renders exactly the starting
directory's immediate children; `maxDepth = 2` renders exactly children
and grandchildren; and in general the output is unchanged when every
subtree is truncated to the remaining depth budget, so entries deeper
than the configured depth never appear. -/
theorem tree_depth_bounding (entries : List (String × FSNode)) (pfx : String) :
    buildTree entries 1 1 pfx = renderLevel (processEntries entries) pfx ∧
    buildTree entries 1 2 pfx = renderLevel2 (processEntries entries) pfx ∧
    ∀ currentDepth maxDepth,
      buildTree (truncMap (maxDepth - currentDepth) entries) currentDepth maxDepth pfx =
        buildTree entries currentDepth maxDepth pfx := by
  refine ⟨?_, ?_, ?_⟩
  · simp [buildTree, renderEntries_zero]
  · simp [buildTree, renderEntries_one]
  · intro cd maxD
    by_cases h : cd > maxD
    · simp [buildTree, h]
    · simp only [buildTree, if_neg h]
      rw [processEntries_trunc, renderEntries_trunc]

/-- C7: at every level of the built tree the rendered entry list is the
sorted-then-filtered listing: it contains no entry whose name starts
with `.` nor any entry named `node_modules`, directory entries all
precede file entries, and within each kind names are ascending in the
modelled `localeCompare` order. -/
theorem tree_ordering_exclusion (entries : List (String × FSNode)) :
    (processEntries entries).all
      (fun e => !strStartsWith e.1 "." && e.1 != "node_modules") = true ∧
    (processEntries entries).Pairwise
      (fun a b => (b.2.isDir = true → a.2.isDir = true) ∧
        (a.2.isDir = b.2.isDir → strLe a.1 b.1 = true)) ∧
    ∀ currentDepth maxDepth pfx,
      buildTree entries currentDepth maxDepth pfx =
        if maxDepth < currentDepth then []
        else renderEntries (maxDepth - currentDepth) (processEntries entries) pfx := by
  refine ⟨?_, ?_, ?_⟩
  · rw [List.all_eq_true]
    intro e he
    unfold processEntries at he
    show keepEntry e = true
    exact List.of_mem_filter he
  · have hs := pairwise_sortLE entryLE entryLE_total
      (fun a b c h1 h2 => entryLE_trans h1 h2) entries
    have hf : (processEntries entries).Pairwise (fun a b => entryLE a b = true) :=
      List.Pairwise.sublist (List.filter_sublist _) hs
    exact hf.imp fun h => entryLE_spec _ _ h
  · intro cd maxD pfx
    rfl

/-! ## FileFinder -/

/-- `path.relative(rootPath, path.join(dirPath, name))` when `relDir` is
the directory's own root-relative path (empty at the root itself). -/
def relJoin (relDir n : String) : String :=
  if relDir = "" then n else relDir ++ "/" ++ n

/-- Embedding of `findFilesRecursive` (source lines 114-145): walk the
entries in the order the directory read returns them (the source never
sorts here), stop as soon as `results` reaches `maxResults` (also
mid-directory), skip entries whose name starts with `.` or equals
`node_modules`, recurse into directories, and append the root-relative
path of every file whose base name the pattern accepts.  The mutated
`results` array is threaded as an accumulator. -/
def findFilesRecursive (pattern : List GTok) (maxResults : Nat) :
    List (String × FSNode) → String → List String → List String
  | [], _, results => results
  | (n, nd) :: rest, relDir, results =>
    if results.length ≥ maxResults then results
    else if strStartsWith n "." || n == "node_modules" then
      findFilesRecursive pattern maxResults rest relDir results
    else
      match nd with
      | FSNode.dir ch =>
        findFilesRecursive pattern maxResults rest relDir
          (findFilesRecursive pattern maxResults ch (relJoin relDir n) results)
      | FSNode.file _ =>
        if regexTest pattern n then
          findFilesRecursive pattern maxResults rest relDir (results ++ [relJoin relDir n])
        else
          findFilesRecursive pattern maxResults rest relDir results

/-- Structural induction principle for directory listings: a listing is
handled by cases on empty, leading file, and leading directory (with a
hypothesis for the directory's children). -/
theorem entries_induction {motive : List (String × FSNode) → Prop} (h0 : motive [])
    (h1 : ∀ n c rest, motive rest → motive ((n, FSNode.file c) :: rest))
    (h2 : ∀ n ch rest, motive ch → motive rest → motive ((n, FSNode.dir ch) :: rest)) :
    ∀ l, motive l
  | [] => h0
  | (n, FSNode.file c) :: rest => h1 n c rest (entries_induction h0 h1 h2 rest)
  | (n, FSNode.dir ch) :: rest =>
    h2 n ch rest (entries_induction h0 h1 h2 ch) (entries_induction h0 h1 h2 rest)

/-- The root-relative path and base name of every non-excluded file, in
the depth-first traversal order that visits each directory's entries in
directory-read order. -/
def filesInOrder : List (String × FSNode) → String → List (String × String)
  | [], _ => []
  | (n, nd) :: rest, relDir =>
    if strStartsWith n "." || n == "node_modules" then filesInOrder rest relDir
    else
      match nd with
      | FSNode.dir ch => filesInOrder ch (relJoin relDir n) ++ filesInOrder rest relDir
      | FSNode.file _ => (relJoin relDir n, n) :: filesInOrder rest relDir

/-- The root-relative paths of the non-excluded files whose base name
matches the pattern, in traversal order. -/
def matchingFiles (pattern : List GTok) (l : List (String × FSNode)) (relDir : String) :
    List String :=
  ((filesInOrder l relDir).filter fun q => regexTest pattern q.2).map fun q => q.1

/-- Truncating an already-truncated prefix of an append changes nothing. -/
theorem take_append_take (m : Nat) (x y : List α) :
    (x.take m ++ y).take m = (x ++ y).take m := by
  rw [List.take_append_eq_append_take, List.take_append_eq_append_take,
    List.take_take m m x, Nat.min_self, List.length_take]
  congr 2
  omega

/-- The capped search equals the full traversal capped at `maxResults`. -/
theorem findFiles_eq_take (pattern : List GTok) (maxResults : Nat) :
    ∀ (l : List (String × FSNode)) (relDir : String) (results : List String),
      results.length ≤ maxResults →
      findFilesRecursive pattern maxResults l relDir results =
        (results ++ matchingFiles pattern l relDir).take maxResults := by
  intro l
  induction l using entries_induction with
  | h0 =>
    intro relDir results h
    simp [findFilesRecursive, matchingFiles, filesInOrder, List.take_of_length_le h]
  | h1 n c rest ih =>
    intro relDir results h
    by_cases hcap : results.length ≥ maxResults
    · have hlen : results.length = maxResults := le_antisymm h hcap
      rw [List.take_append_eq_append_take]
      simp [findFilesRecursive, hcap, hlen, List.take_of_length_le h]
    · have hlt : results.length < maxResults := lt_of_not_ge hcap
      by_cases hskip : (strStartsWith n "." || n == "node_modules") = true
      · simp only [findFilesRecursive, if_neg hcap, if_pos hskip]
        rw [ih relDir results h]
        simp [matchingFiles, filesInOrder, hskip]
      · by_cases hm : regexTest pattern n = true
        · simp only [findFilesRecursive, if_neg hcap, if_neg hskip]
          rw [if_pos hm, ih relDir (results ++ [relJoin relDir n]) (by simp; omega)]
          simp [matchingFiles, filesInOrder, hskip, hm]
        · simp only [findFilesRecursive, if_neg hcap, if_neg hskip]
          rw [if_neg hm, ih relDir results h]
          simp [matchingFiles, filesInOrder, hskip, hm]
  | h2 n ch rest ih1 ih2 =>
    intro relDir results h
    by_cases hcap : results.length ≥ maxResults
    · have hlen : results.length = maxResults := le_antisymm h hcap
      rw [List.take_append_eq_append_take]
      simp [findFilesRecursive, hcap, hlen, List.take_of_length_le h]
    · by_cases hskip : (strStartsWith n "." || n == "node_modules") = true
      · simp only [findFilesRecursive, if_neg hcap, if_pos hskip]
        rw [ih2 relDir results h]
        simp [matchingFiles, filesInOrder, hskip]
      · simp only [findFilesRecursive, if_neg hcap, if_neg hskip]
        rw [ih1 (relJoin relDir n) results h]
        have hlen2 : ((results ++ matchingFiles pattern ch (relJoin relDir n)).take
            maxResults).length ≤ maxResults := by
          simp [List.length_take]
        rw [ih2 relDir _ hlen2, take_append_take, List.append_assoc]
        have hsplit : matchingFiles pattern ((n, FSNode.dir ch) :: rest) relDir =
            matchingFiles pattern ch (relJoin relDir n) ++ matchingFiles pattern rest relDir := by
          simp [matchingFiles, filesInOrder, hskip]
        rw [hsplit]

/-- C5: the search result is the matching-file traversal capped at
`maxResults`: never more than `maxResults` paths, and exactly
`min (number of matching non-excluded files) maxResults` paths, so the
cap is hit exactly whenever at least `maxResults` files match. -/
theorem findFiles_cap (pattern : List GTok) (maxResults : Nat)
    (entries : List (String × FSNode)) (relDir : String) :
    (findFilesRecursive pattern maxResults entries relDir []).length ≤ maxResults ∧
    (findFilesRecursive pattern maxResults entries relDir []).length =
      min (matchingFiles pattern entries relDir).length maxResults := by
  have h := findFiles_eq_take pattern maxResults entries relDir [] (by simp)
  simp only [List.nil_append] at h
  rw [h]
  constructor
  · simp [List.length_take]
  · simp [List.length_take, Nat.min_comm]

mutual

/-- Specification-side reordering of a whole tree: every directory's
listing is sorted directories-first and lexicographically and stripped
of excluded entries, recursively. -/
def deepSortNode : FSNode → FSNode
  | FSNode.file c => FSNode.file c
  | FSNode.dir ch => FSNode.dir (processEntries (deepSortList ch))

/-- `deepSortNode` applied below every entry of a listing. -/
def deepSortList : List (String × FSNode) → List (String × FSNode)
  | [] => []
  | (n, nd) :: rest => (n, deepSortNode nd) :: deepSortList rest

end

/-- The collection order claimed by the specification: the depth-first
traversal of the tree after every level is reordered
directories-before-files and lexicographically ascending (the tree-view
ordering). -/
def specOrderedFind (pattern : List GTok) (l : List (String × FSNode)) (relDir : String) :
    List String :=
  matchingFiles pattern (processEntries (deepSortList l)) relDir

/-- C2 (amended): `findFilesRecursive` collects the matching
non-excluded files in plain depth-first traversal order, visiting each
directory's entries exactly in the order the directory read returns
them (no directories-before-files or lexicographic reordering), capped
at `maxResults`. -/
theorem findFiles_traversal_order (pattern : List GTok) (maxResults : Nat)
    (entries : List (String × FSNode)) (relDir : String) :
    findFilesRecursive pattern maxResults entries relDir [] =
      (matchingFiles pattern entries relDir).take maxResults := by
  have h := findFiles_eq_take pattern maxResults entries relDir [] (by simp)
  simpa using h

/-- C2 counterexample: with the directory read returning the file
`b.ts` before the directory `a`, the search returns `b.ts` first, while
the claimed tree-view order (directories before files) would return
`a/a.ts` first. -/
theorem findFiles_order_counterexample :
    findFilesRecursive (globToRegex "*") 1000
        [("b.ts", FSNode.file ""), ("a", FSNode.dir [("a.ts", FSNode.file "")])] "" [] =
      ["b.ts", "a/a.ts"] ∧
    specOrderedFind (globToRegex "*")
        [("b.ts", FSNode.file ""), ("a", FSNode.dir [("a.ts", FSNode.file "")])] "" =
      ["a/a.ts", "b.ts"] ∧
    (["b.ts", "a/a.ts"] : List String) ≠ ["a/a.ts", "b.ts"] := by
  have hg : globToRegex "*" = [GTok.star] := by decide
  have m1 : regexTest (globToRegex "*") "b.ts" = true := by
    rw [hg]
    exact (matchTok_iff _ _).mpr (gmatch_star_of_all _ (by decide))
  have m2 : regexTest (globToRegex "*") "a.ts" = true := by
    rw [hg]
    exact (matchTok_iff _ _).mpr (gmatch_star_of_all _ (by decide))
  have s1 : (strStartsWith "b.ts" "." || "b.ts" == "node_modules") = false := by decide
  have s2 : (strStartsWith "a" "." || "a" == "node_modules") = false := by decide
  have s3 : (strStartsWith "a.ts" "." || "a.ts" == "node_modules") = false := by decide
  have t1 : strStartsWith "b.ts" "." = false := by decide
  have t2 : strStartsWith "a" "." = false := by decide
  have t3 : strStartsWith "a.ts" "." = false := by decide
  refine ⟨?_, ?_, by decide⟩
  · simp [findFilesRecursive, relJoin, s1, s2, s3, t1, t2, t3, m1, m2]
  · have hd : deepSortList
        [("b.ts", FSNode.file ""), ("a", FSNode.dir [("a.ts", FSNode.file "")])] =
        [("b.ts", FSNode.file ""), ("a", FSNode.dir [("a.ts", FSNode.file "")])] := by
      simp [deepSortList, deepSortNode, processEntries, sortLE, insertLE, keepEntry,
        s3, t3]
    rw [specOrderedFind, hd]
    have hp : processEntries
        [("b.ts", FSNode.file ""), ("a", FSNode.dir [("a.ts", FSNode.file "")])] =
        [("a", FSNode.dir [("a.ts", FSNode.file "")]), ("b.ts", FSNode.file "")] := by
      simp [processEntries, sortLE, insertLE, entryLE, FSNode.isDir, keepEntry,
        s1, s2, t1, t2]
    rw [hp]
    simp [matchingFiles, filesInOrder, relJoin, s1, s2, s3, t1, t2, t3, m1, m2]

/-! ## Operation result records -/

/-- One `entries[]` element of a `listDirectory` result.  The model has
no symlinks or unreadable entries, so `type` is `"file"` or
`"directory"`; `sizeBytes` is the content length for files (the
human-readable `size` string is presentation, not modelled). -/
structure DirEntryRec where
  name : String
  type : String
  sizeBytes : Nat := 0
deriving Repr, DecidableEq

/-- One grep match line: root-relative file, 1-based line number, line
text and the context flag. -/
structure MatchRec where
  file : String
  lineNumber : Nat
  content : String
  isContext : Bool := false
deriving Repr, DecidableEq

/-- The union of the fields of every operation's result record (the
source returns plain JSON objects; absent fields keep their defaults).
`exists_` models the `exists` field of `fileInfo`; timestamp and mode
fields of `fileInfo` and the human-readable `size` strings are
presentation-only and not modelled. -/
structure OpResult where
  operation : String := ""
  path : String := ""
  found : Bool := true
  exists_ : Bool := true
  message : String := ""
  isFile : Bool := false
  isDirectory : Bool := false
  totalItems : Nat := 0
  dirCount : Nat := 0
  fileCount : Nat := 0
  entries : List DirEntryRec := []
  totalLines : Nat := 0
  linesReturned : Nat := 0
  lineOffset : Nat := 0
  sizeBytes : Nat := 0
  content : String := ""
  lines : List (Nat × String) := []
  pattern : String := ""
  filePattern : String := ""
  caseInsensitive : Bool := false
  totalMatches : Nat := 0
  filesWithMatches : Nat := 0
  matchList : List MatchRec := []
  matchesByFile : List (String × List MatchRec) := []
  totalFound : Nat := 0
  filesList : List String := []
  maxDepth : Nat := 0
  tree : String := ""
  treeLines : List String := []
deriving Repr, DecidableEq

/-! ## `readFile` line windowing -/

/-- JS `content.split('\n')`. -/
def splitLines (s : String) : List String :=
  (splitOnChar '\n' s.data).map fun cs => String.mk cs

/-- JS `lines.join('\n')`. -/
def joinLines : List String → String
  | [] => ""
  | [l] => l
  | l :: ls => l ++ "\n" ++ joinLines ls

/-- The numbered-lines mapping (source lines 460-463): the line at
window index `idx` is tagged `lineOffset + idx + 1`. -/
def numberLines (off : Nat) : List String → List (Nat × String)
  | [] => []
  | l :: ls => (off + 1, l) :: numberLines (off + 1) ls

/-- The consecutive numbers `start, start+1, ...` of length `len`. -/
def lineNums : Nat → Nat → List Nat
  | _, 0 => []
  | s, n + 1 => s :: lineNums (s + 1) n

/-- Embedding of the `readFile` windowing (source lines 447-477): split
on newlines, count all lines, drop `lineOffset` lines when positive,
take `maxLines` lines when positive, and report the window with
1-based line numbers. -/
def readFileWindow (targetPath content : String) (maxLines lineOffset : Nat) : OpResult :=
  let lines0 := splitLines content
  let totalLines := lines0.length
  let lines1 := if lineOffset > 0 then lines0.drop lineOffset else lines0
  let lines2 := if maxLines > 0 then lines1.take maxLines else lines1
  { operation := "readFile", path := targetPath, found := true,
    totalLines := totalLines, linesReturned := lines2.length, lineOffset := lineOffset,
    sizeBytes := content.data.length,
    content := joinLines lines2,
    lines := numberLines lineOffset lines2 }

/-- The numbered window keeps exactly the window's text. -/
theorem numberLines_map_snd (off : Nat) :
    ∀ ls : List String, (numberLines off ls).map Prod.snd = ls := by
  intro ls
  induction ls generalizing off with
  | nil => simp [numberLines]
  | cons l ls ih => simp [numberLines, ih]

/-- The numbered window is tagged with consecutive 1-based numbers
starting at `off + 1`. -/
theorem numberLines_map_fst (off : Nat) :
    ∀ ls : List String, (numberLines off ls).map Prod.fst = lineNums (off + 1) ls.length := by
  intro ls
  induction ls generalizing off with
  | nil => simp [numberLines, lineNums]
  | cons l ls ih => simp [numberLines, lineNums, ih]

/-- The numbered window has the window's length. -/
theorem numberLines_length (off : Nat) :
    ∀ ls : List String, (numberLines off ls).length = ls.length := by
  intro ls
  induction ls generalizing off with
  | nil => simp [numberLines]
  | cons l ls ih => simp [numberLines, ih]

/-- C8: `readFile` windowing returns exactly the file's lines from
`lineOffset` (all of them when `maxLines = 0`, else at most `maxLines`,
capped at the end of the file), reports `totalLines` as the full line
count before windowing and `linesReturned` as the window length, and
tags the line at window index `i` with line number
`lineOffset + i + 1`. -/
theorem readFile_windowing (targetPath content : String) (maxLines lineOffset : Nat) :
    (readFileWindow targetPath content maxLines lineOffset).totalLines =
      (splitLines content).length ∧
    (readFileWindow targetPath content maxLines lineOffset).lines.map Prod.snd =
      (if maxLines = 0 then (splitLines content).drop lineOffset
        else ((splitLines content).drop lineOffset).take maxLines) ∧
    (readFileWindow targetPath content maxLines lineOffset).linesReturned =
      (readFileWindow targetPath content maxLines lineOffset).lines.length ∧
    (readFileWindow targetPath content maxLines lineOffset).lines.map Prod.fst =
      lineNums (lineOffset + 1)
        (readFileWindow targetPath content maxLines lineOffset).lines.length ∧
    (readFileWindow targetPath content maxLines lineOffset).found = true := by
  have hdrop : (if lineOffset > 0 then (splitLines content).drop lineOffset
      else splitLines content) = (splitLines content).drop lineOffset := by
    by_cases ho : lineOffset > 0
    · rw [if_pos ho]
    · rw [if_neg ho]
      have : lineOffset = 0 := by omega
      rw [this, List.drop_zero]
  by_cases hm : maxLines = 0
  · simp [readFileWindow, hm, hdrop, numberLines_map_snd, numberLines_map_fst,
      numberLines_length]
  · have hm2 : maxLines > 0 := Nat.pos_of_ne_zero hm
    simp [readFileWindow, hm, hm2, hdrop, numberLines_map_snd, numberLines_map_fst,
      numberLines_length]

/-! ## ContentSearcher: grep output handling -/

/-- Outcome of the external `execSync(grep ...)` call: success with
stdout, or an exception carrying the exit status and the stdout
captured so far (the model of the catch block's inputs). -/
inductive GrepOutcome where
  | success (out : String)
  | failure (status : Int) (stdout : String)

/-- The catch logic of the grep case (source lines 504-517): exit
status 1 (no matches) yields empty output, any other failure falls back
to whatever stdout the failed process produced. -/
def grepOutputOf : GrepOutcome → String
  | GrepOutcome.success out => out
  | GrepOutcome.failure status stdout => if status = 1 then "" else stdout

/-- Longest leading digit run of a character list, with the rest. -/
def takeDigits : List Char → List Char × List Char
  | [] => ([], [])
  | c :: rest =>
    if c.isDigit then
      let p := takeDigits rest
      (c :: p.1, p.2)
    else ([], c :: rest)

/-- Digits to the number `parseInt` returns on an all-digit string. -/
def digitsToNat (ds : List Char) : Nat :=
  ds.foldl (fun n c => n * 10 + (c.toNat - 48)) 0

/-- Lazy regex scan for `^(.+?)SEP(\d+)SEP(.*)$`: find the earliest
position after a nonempty group 1 where the separator is followed by a
nonempty maximal digit run and the separator again (JS backtracking
semantics: the greedy `\d+` can only succeed on the maximal run, and
the lazy group 1 takes the first viable split). -/
def scanSepNum (sep : Char) (pre : List Char) :
    List Char → Option (List Char × List Char × List Char)
  | [] => none
  | c :: rest =>
    if c = sep then
      if pre.isEmpty then scanSepNum sep (pre ++ [c]) rest
      else
        match takeDigits rest with
        | (d :: ds, r :: tail) =>
          if r = sep then some (pre, d :: ds, tail) else scanSepNum sep (pre ++ [c]) rest
        | _ => scanSepNum sep (pre ++ [c]) rest
    else scanSepNum sep (pre ++ [c]) rest

/-- Segments of a normalized absolute path (separator-split, empties
dropped). -/
def segsOf (p : String) : List String :=
  ((splitOnChar '/' p.data).filter fun cs => cs ≠ []).map fun cs => String.mk cs

/-- Length of the common segment prefix of two paths. -/
def commonLen : List String → List String → Nat
  | a :: as, b :: bs => if a = b then 1 + commonLen as bs else 0
  | _, _ => 0

/-- Join path segments with `/`. -/
def joinSegs : List String → String
  | [] => ""
  | [s] => s
  | s :: rest => s ++ "/" ++ joinSegs rest

/-- Models POSIX `path.relative(fromP, toP)` on normalized absolute
paths: walk up from `fromP` past the common prefix, then down into
`toP`. -/
def relOf (fromP toP : String) : String :=
  let f := segsOf fromP
  let t := segsOf toP
  let k := commonLen f t
  joinSegs (List.replicate (f.length - k) ".." ++ t.drop k)

/-- Parse one grep output line (source lines 531-547): `file:line:text`
is a match, otherwise `file-line-text` is a context line, otherwise the
line is dropped; the file is reported relative to the resolved root. -/
def parseGrepLine (resolvedRoot : String) (line : List Char) : Option MatchRec :=
  match scanSepNum ':' [] line with
  | some (pre, ds, tail) =>
    some { file := relOf resolvedRoot (String.mk pre), lineNumber := digitsToNat ds,
           content := String.mk tail, isContext := false }
  | none =>
    match scanSepNum '-' [] line with
    | some (pre, ds, tail) =>
      some { file := relOf resolvedRoot (String.mk pre), lineNumber := digitsToNat ds,
             content := String.mk tail, isContext := true }
    | none => none

/-- Append a match to its file's group, keeping first-seen file order
(the JS object key insertion order, source lines 552-560). -/
def addMatch : List (String × List MatchRec) → MatchRec → List (String × List MatchRec)
  | [], m => [(m.file, [m])]
  | (f, l) :: rest, m =>
    if f = m.file then (f, l ++ [m]) :: rest else (f, l) :: addMatch rest m

/-- Group matches by file. -/
def groupByFile (ms : List MatchRec) : List (String × List MatchRec) :=
  ms.foldl addMatch []

/-- The grep result record (source lines 519-573): split the output into
non-blank lines, parse each, group by file and count the non-context
matches.  The command construction itself is external-process plumbing
and not part of the record's content. -/
def grepCase (searchPattern targetPath filePattern : String) (caseInsensitive : Bool)
    (outc : GrepOutcome) (resolvedRoot : String) : OpResult :=
  let out := grepOutputOf outc
  let ls := (splitOnChar '\n' out.data).filter fun l => l.any fun c => !c.isWhitespace
  let ms := ls.filterMap (parseGrepLine resolvedRoot)
  let byFile := groupByFile ms
  { operation := "grep", pattern := searchPattern,
    path := (if targetPath = "" then "." else targetPath),
    filePattern := filePattern, caseInsensitive := caseInsensitive,
    totalMatches := (ms.filter fun m => !m.isContext).length,
    filesWithMatches := byFile.length,
    matchesByFile := byFile, matchList := ms }

/-! ## Filesystem lookup and the remaining operations -/

/-- First child with the given name. -/
def findChild : List (String × FSNode) → String → Option FSNode
  | [], _ => none
  | (n, nd) :: rest, s => if n = s then some nd else findChild rest s

/-- Walk a segment path down the model filesystem. -/
def walkFS : FSNode → List String → Option FSNode
  | nd, [] => some nd
  | FSNode.file _, _ :: _ => none
  | FSNode.dir ch, s :: rest =>
    match findChild ch s with
    | some nd => walkFS nd rest
    | none => none

/-- `getStats`-style lookup of an absolute path in the model filesystem
(the whole tree rooted at `/`); `none` models a failing `statSync`. -/
def lookupAbs (fs : FSNode) (absPath : String) : Option FSNode :=
  walkFS fs (segsOf absPath)

/-- POSIX `path.basename` of a normalized absolute path. -/
def basenameOf (p : String) : String :=
  match (segsOf p).reverse with
  | [] => ""
  | s :: _ => s

/-- The `listDirectory` comparator (source lines 390-394): directories
first, then `localeCompare` on names. -/
def dirEntLE (a b : DirEntryRec) : Bool :=
  if a.type == "directory" && !(b.type == "directory") then true
  else if !(a.type == "directory") && b.type == "directory" then false
  else strLe a.name b.name

/-- The record built for one raw directory entry (source lines 365-387);
no filtering of any kind is applied. -/
def entryRecOf (e : String × FSNode) : DirEntryRec :=
  match e.2 with
  | FSNode.dir _ => { name := e.1, type := "directory" }
  | FSNode.file c => { name := e.1, type := "file", sizeBytes := c.data.length }

/-- The `listDirectory` success record (source lines 357-405): every raw
entry is mapped and sorted (directories first, then names); nothing is
excluded, and `totalItems` is the sorted array's length. -/
def listDirectoryCase (ch : List (String × FSNode)) (pathField : String) : OpResult :=
  let files := ch.map entryRecOf
  let sorted := sortLE dirEntLE files
  { operation := "listDirectory", path := pathField, found := true,
    totalItems := sorted.length,
    dirCount := (sorted.filter fun f => f.type == "directory").length,
    fileCount := (sorted.filter fun f => f.type == "file").length,
    entries := sorted }

/-- The node's parameters with their declared defaults.  Numeric
parameters are `Nat`: the behavior on negative inputs is left
unspecified by the specification. -/
structure NodeParams where
  rootPath : String := ""
  operation : String := ""
  path : String := ""
  maxLines : Nat := 0
  lineOffset : Nat := 0
  searchPattern : String := ""
  filePattern : String := "*"
  caseInsensitive : Bool := false
  contextLines : Nat := 0
  namePattern : String := "*"
  maxDepth : Nat := 3

/-- The `listDirectory` case of `execute` (source lines 331-406). -/
def listDirectoryOp (fs : FSNode) (resolvedRoot targetPath : String) : Except String OpResult :=
  match validatePath resolvedRoot (if targetPath = "" then "." else targetPath) with
  | Except.error e => Except.error e
  | Except.ok fullPath =>
    match lookupAbs fs fullPath with
    | none =>
      Except.ok
        { operation := "listDirectory",
          path := (if targetPath = "" then "." else targetPath), found := false,
          message := "Directory not found: " ++ (if targetPath = "" then "." else targetPath) }
    | some (FSNode.file _) =>
      Except.ok
        { operation := "listDirectory",
          path := (if targetPath = "" then "." else targetPath), found := false, isFile := true,
          message := "Path exists but is not a directory: " ++ targetPath }
    | some (FSNode.dir ch) =>
      Except.ok (listDirectoryCase ch (if targetPath = "" then "." else targetPath))

/-- The `readFile` case of `execute` (source lines 408-478). -/
def readFileOp (fs : FSNode) (resolvedRoot targetPath : String) (maxLines lineOffset : Nat) :
    Except String OpResult :=
  if targetPath = "" then
    Except.ok
      { operation := "readFile", path := "", found := false,
        message := "Path is required for readFile operation" }
  else
    match validatePath resolvedRoot targetPath with
    | Except.error e => Except.error e
    | Except.ok fullPath =>
      match lookupAbs fs fullPath with
      | none =>
        Except.ok
          { operation := "readFile", path := targetPath, found := false,
            message := "File not found: " ++ targetPath }
      | some (FSNode.dir _) =>
        Except.ok
          { operation := "readFile", path := targetPath, found := false,
            isDirectory := true, message := "Path exists but is not a file: " ++ targetPath }
      | some (FSNode.file content) =>
        Except.ok (readFileWindow targetPath content maxLines lineOffset)

/-- The `grep` case of `execute` (source lines 480-574): a missing
search pattern aborts; after path validation the external outcome is
always converted into a result record, never into an error. -/
def grepOp (resolvedRoot : String) (p : NodeParams) (outc : GrepOutcome) :
    Except String OpResult :=
  if p.searchPattern = "" then Except.error "searchPattern is required for grep operation"
  else
    match validatePath resolvedRoot (if p.path = "" then "." else p.path) with
    | Except.error e => Except.error e
    | Except.ok _ =>
      Except.ok (grepCase p.searchPattern p.path p.filePattern p.caseInsensitive outc
        resolvedRoot)

/-- The `findFiles` case of `execute` (source lines 576-594); a missing
or non-directory target makes `readdirSync` throw inside
`findFilesRecursive`, which swallows it, leaving no results. -/
def findFilesOp (fs : FSNode) (resolvedRoot namePattern targetPath : String) :
    Except String OpResult :=
  match validatePath resolvedRoot (if targetPath = "" then "." else targetPath) with
  | Except.error e => Except.error e
  | Except.ok fullPath =>
    let found := match lookupAbs fs fullPath with
      | some (FSNode.dir ch) =>
        findFilesRecursive (globToRegex namePattern) 1000 ch (relOf resolvedRoot fullPath) []
      | _ => []
    Except.ok
      { operation := "findFiles", pattern := namePattern,
        path := (if targetPath = "" then "." else targetPath),
        totalFound := found.length, filesList := found }

/-- The `fileInfo` case of `execute` (source lines 596-637); timestamps
and the mode string are presentation fields, not modelled. -/
def fileInfoOp (fs : FSNode) (resolvedRoot targetPath : String) : Except String OpResult :=
  if targetPath = "" then
    Except.ok
      { operation := "fileInfo", path := "", exists_ := false,
        message := "Path is required for fileInfo operation" }
  else
    match validatePath resolvedRoot targetPath with
    | Except.error e => Except.error e
    | Except.ok fullPath =>
      match lookupAbs fs fullPath with
      | none =>
        Except.ok
          { operation := "fileInfo", path := targetPath, exists_ := false,
            message := "Path not found: " ++ targetPath }
      | some (FSNode.file c) =>
        Except.ok
          { operation := "fileInfo", path := targetPath, exists_ := true,
            isFile := true, isDirectory := false, sizeBytes := c.data.length }
      | some (FSNode.dir _) =>
        Except.ok
          { operation := "fileInfo", path := targetPath, exists_ := true,
            isFile := false, isDirectory := true }

/-- The `tree` case of `execute` (source lines 639-682): `maxDepth`
silently clamps into `[1, 10]` and the caller's name line is prepended
to the built tree. -/
def treeOp (fs : FSNode) (resolvedRoot targetPath : String) (maxDepthParam : Nat) :
    Except String OpResult :=
  let maxD := max 1 (min 10 maxDepthParam)
  match validatePath resolvedRoot (if targetPath = "" then "." else targetPath) with
  | Except.error e => Except.error e
  | Except.ok fullPath =>
    match lookupAbs fs fullPath with
    | none =>
      Except.ok
        { operation := "tree", path := (if targetPath = "" then "." else targetPath),
          found := false,
          message := "Directory not found: " ++ (if targetPath = "" then "." else targetPath) }
    | some (FSNode.file _) =>
      Except.ok
        { operation := "tree", path := (if targetPath = "" then "." else targetPath),
          found := false, isFile := true,
          message := "Path exists but is not a directory: " ++ targetPath }
    | some (FSNode.dir ch) =>
      let lines := buildTree ch 1 maxD ""
      let rootName := if targetPath = "" then basenameOf resolvedRoot else targetPath
      Except.ok
        { operation := "tree", path := (if targetPath = "" then "." else targetPath),
          found := true, maxDepth := maxD,
          tree := rootName ++ "/\n" ++ joinLines lines,
          treeLines := (rootName ++ "/") :: lines }

/-- Embedding of one `execute` iteration (source lines 307-709): missing
root and non-directory root abort, then the operation switch runs; an
unknown operation name aborts.  `path.resolve(rootPath)` is modelled
for absolute roots. -/
def executeOp (fs : FSNode) (outc : GrepOutcome) (p : NodeParams) : Except String OpResult :=
  if p.rootPath = "" then Except.error "Root path is required"
  else
    let resolvedRoot := normalizeAbs p.rootPath
    match lookupAbs fs resolvedRoot with
    | some (FSNode.dir _) =>
      if p.operation = "listDirectory" then listDirectoryOp fs resolvedRoot p.path
      else if p.operation = "readFile" then
        readFileOp fs resolvedRoot p.path p.maxLines p.lineOffset
      else if p.operation = "grep" then grepOp resolvedRoot p outc
      else if p.operation = "findFiles" then findFilesOp fs resolvedRoot p.namePattern p.path
      else if p.operation = "fileInfo" then fileInfoOp fs resolvedRoot p.path
      else if p.operation = "tree" then treeOp fs resolvedRoot p.path p.maxDepth
      else Except.error ("Unknown operation: " ++ p.operation)
    | _ => Except.error ("Root path does not exist or is not a directory: " ++ resolvedRoot)

/-- The mapped record keeps the raw entry's name. -/
theorem entryRecOf_name (e : String × FSNode) : (entryRecOf e).name = e.1 := by
  obtain ⟨n, nd⟩ := e
  cases nd <;> rfl

/-- C10: `listDirectory` reports every raw entry of the directory —
names starting with `.` and `node_modules` included, since no
hidden-entry filter is applied — so `totalItems` equals the raw entry
count and the reported names are a permutation of the raw names. -/
theorem listDirectory_no_filtering (ch : List (String × FSNode)) (pathField : String) :
    (listDirectoryCase ch pathField).totalItems = ch.length ∧
    ((listDirectoryCase ch pathField).entries.map fun e => e.name).Perm
      (ch.map fun e => e.1) ∧
    (listDirectoryCase ch pathField).found = true := by
  have hp : (sortLE dirEntLE (ch.map entryRecOf)).Perm (ch.map entryRecOf) :=
    sortLE_perm dirEntLE (ch.map entryRecOf)
  refine ⟨?_, ?_, rfl⟩
  · show (sortLE dirEntLE (ch.map entryRecOf)).length = ch.length
    rw [hp.length_eq, List.length_map]
  · show ((sortLE dirEntLE (ch.map entryRecOf)).map fun e => e.name).Perm
      (ch.map fun e => e.1)
    have h1 := hp.map fun e : DirEntryRec => e.name
    have h2 : (ch.map entryRecOf).map (fun e : DirEntryRec => e.name) =
        ch.map fun e => e.1 := by
      rw [List.map_map]
      have : ((fun e : DirEntryRec => e.name) ∘ entryRecOf) =
          fun e : String × FSNode => e.1 :=
        funext fun e => entryRecOf_name e
      rw [this]
    rw [h2] at h1
    exact h1

/-- C3 counterexample: a malformed search pattern (here `(`) makes the
external grep fail with exit status 2 and empty stdout, yet the call
returns an ordinary result record with zero matches instead of failing
with an invalid-pattern error. -/
theorem grep_malformed_counterexample :
    executeOp (FSNode.dir [("repo", FSNode.dir [("a.txt", FSNode.file "hello")])])
        (GrepOutcome.failure 2 "")
        { rootPath := "/repo", operation := "grep", searchPattern := "(" } =
      Except.ok
        { operation := "grep", pattern := "(", path := ".", filePattern := "*",
          caseInsensitive := false, totalMatches := 0, filesWithMatches := 0 } := by
  rfl

/-- C3 (amended): the grep operation never fails on a malformed search
pattern: after the structural checks (nonempty pattern, valid path) any
external grep failure with a status other than 1 is swallowed, its
captured stdout is parsed instead, and a result record is returned; for
a failure with empty stdout the record reports zero matches.  No
invalid-pattern error exists in the code. -/
theorem grep_malformed_no_abort (fs : FSNode) (p : NodeParams) (outc : GrepOutcome)
    (rootCh : List (String × FSNode)) (fullPath : String)
    (hop : p.operation = "grep") (hsp : ¬p.searchPattern = "") (hroot : ¬p.rootPath = "")
    (hlook : lookupAbs fs (normalizeAbs p.rootPath) = some (FSNode.dir rootCh))
    (hval : validatePath (normalizeAbs p.rootPath) (if p.path = "" then "." else p.path) =
      Except.ok fullPath) :
    executeOp fs outc p =
      Except.ok (grepCase p.searchPattern p.path p.filePattern p.caseInsensitive outc
        (normalizeAbs p.rootPath)) ∧
    (grepCase p.searchPattern p.path p.filePattern p.caseInsensitive
        (GrepOutcome.failure 2 "") (normalizeAbs p.rootPath)).totalMatches = 0 := by
  constructor
  · simp only [executeOp, if_neg hroot, hlook]
    rw [hop]
    simp [grepOp, hsp, hval]
  · rfl

/-- Instance of `grep_malformed_no_abort`: the malformed pattern `(`
with a failed external grep yields an ordinary zero-match record. -/
theorem grep_malformed_no_abort_witness :
    executeOp (FSNode.dir [("repo", FSNode.dir [("a.txt", FSNode.file "hello")])])
        (GrepOutcome.failure 2 "xx")
        { rootPath := "/repo", operation := "grep", searchPattern := "(" } =
      Except.ok (grepCase "(" "" "*" false (GrepOutcome.failure 2 "xx") "/repo") ∧
    (grepCase "(" "" "*" false (GrepOutcome.failure 2 "") "/repo").totalMatches = 0 := by
  have h := grep_malformed_no_abort
    (FSNode.dir [("repo", FSNode.dir [("a.txt", FSNode.file "hello")])])
    { rootPath := "/repo", operation := "grep", searchPattern := "(" }
    (GrepOutcome.failure 2 "xx")
    [("a.txt", FSNode.file "hello")] "/repo"
    rfl (by decide) (by decide) rfl rfl
  exact h

/-- A `listDirectory` case error can only come from path validation. -/
theorem listDirectoryOp_error {fs : FSNode} {rr t e : String}
    (h : listDirectoryOp fs rr t = Except.error e) :
    validatePath rr (if t = "" then "." else t) = Except.error e := by
  unfold listDirectoryOp at h
  split at h
  · next e2 hv =>
    cases h
    exact hv
  · next fp hv =>
    split at h <;> cases h

/-- A `readFile` case error can only come from path validation. -/
theorem readFileOp_error {fs : FSNode} {rr t : String} {ml lo : Nat} {e : String}
    (h : readFileOp fs rr t ml lo = Except.error e) :
    validatePath rr t = Except.error e := by
  unfold readFileOp at h
  by_cases ht : t = ""
  · rw [if_pos ht] at h
    cases h
  · rw [if_neg ht] at h
    split at h
    · next e2 hv =>
      cases h
      exact hv
    · next fp hv =>
      split at h <;> cases h

/-- A `grep` case error is a missing search pattern or path validation. -/
theorem grepOp_error {rr : String} {p : NodeParams} {outc : GrepOutcome} {e : String}
    (h : grepOp rr p outc = Except.error e) :
    (p.searchPattern = "" ∧ e = "searchPattern is required for grep operation") ∨
      validatePath rr (if p.path = "" then "." else p.path) = Except.error e := by
  unfold grepOp at h
  by_cases hs : p.searchPattern = ""
  · rw [if_pos hs] at h
    cases h
    exact Or.inl ⟨hs, rfl⟩
  · rw [if_neg hs] at h
    split at h
    · next e2 hv =>
      cases h
      exact Or.inr hv
    · next fp hv =>
      cases h

/-- A `findFiles` case error can only come from path validation. -/
theorem findFilesOp_error {fs : FSNode} {rr np t e : String}
    (h : findFilesOp fs rr np t = Except.error e) :
    validatePath rr (if t = "" then "." else t) = Except.error e := by
  unfold findFilesOp at h
  split at h
  · next e2 hv =>
    cases h
    exact hv
  · next fp hv =>
    cases h

/-- A `fileInfo` case error can only come from path validation. -/
theorem fileInfoOp_error {fs : FSNode} {rr t e : String}
    (h : fileInfoOp fs rr t = Except.error e) :
    validatePath rr t = Except.error e := by
  unfold fileInfoOp at h
  by_cases ht : t = ""
  · rw [if_pos ht] at h
    cases h
  · rw [if_neg ht] at h
    split at h
    · next e2 hv =>
      cases h
      exact hv
    · next fp hv =>
      split at h <;> cases h

/-- A `tree` case error can only come from path validation. -/
theorem treeOp_error {fs : FSNode} {rr t : String} {md : Nat} {e : String}
    (h : treeOp fs rr t md = Except.error e) :
    validatePath rr (if t = "" then "." else t) = Except.error e := by
  unfold treeOp at h
  split at h
  · next e2 hv =>
    cases h
    exact hv
  · next fp hv =>
    split at h <;> cases h

/-- C9: a call aborts with an error only for a missing root path, a root
that is not a directory, a path-traversal rejection, a missing grep
search pattern, or an unknown operation name; in particular `readFile`
and `fileInfo` on a validated but missing path return an ordinary
record with `found`/`exists` false and a message naming the attempted
path, and never raise. -/
theorem execute_error_taxonomy (fs : FSNode) (outc : GrepOutcome) (p : NodeParams) :
    (∀ e, executeOp fs outc p = Except.error e →
      p.rootPath = "" ∨
      (∀ ch, lookupAbs fs (normalizeAbs p.rootPath) ≠ some (FSNode.dir ch)) ∨
      (∃ rel, validatePath (normalizeAbs p.rootPath) rel = Except.error e) ∨
      (p.operation = "grep" ∧ p.searchPattern = "") ∨
      p.operation ∉ (["listDirectory", "readFile", "grep", "findFiles", "fileInfo",
        "tree"] : List String)) ∧
    (∀ fullPath, p.operation = "readFile" → ¬p.path = "" →
      validatePath (normalizeAbs p.rootPath) p.path = Except.ok fullPath →
      lookupAbs fs fullPath = none → ¬p.rootPath = "" →
      ∀ ch, lookupAbs fs (normalizeAbs p.rootPath) = some (FSNode.dir ch) →
      executeOp fs outc p =
        Except.ok
          { operation := "readFile", path := p.path, found := false,
            message := "File not found: " ++ p.path }) ∧
    (∀ fullPath, p.operation = "fileInfo" → ¬p.path = "" →
      validatePath (normalizeAbs p.rootPath) p.path = Except.ok fullPath →
      lookupAbs fs fullPath = none → ¬p.rootPath = "" →
      ∀ ch, lookupAbs fs (normalizeAbs p.rootPath) = some (FSNode.dir ch) →
      executeOp fs outc p =
        Except.ok
          { operation := "fileInfo", path := p.path, exists_ := false,
            message := "Path not found: " ++ p.path }) := by
  refine ⟨?_, ?_, ?_⟩
  · intro e h
    by_cases hr : p.rootPath = ""
    · exact Or.inl hr
    · simp only [executeOp, if_neg hr] at h
      split at h
      · rename_i ch0 hl
        by_cases ho1 : p.operation = "listDirectory"
        · rw [if_pos ho1] at h
          exact Or.inr (Or.inr (Or.inl ⟨_, listDirectoryOp_error h⟩))
        · rw [if_neg ho1] at h
          by_cases ho2 : p.operation = "readFile"
          · rw [if_pos ho2] at h
            exact Or.inr (Or.inr (Or.inl ⟨_, readFileOp_error h⟩))
          · rw [if_neg ho2] at h
            by_cases ho3 : p.operation = "grep"
            · rw [if_pos ho3] at h
              rcases grepOp_error h with ⟨hs, _⟩ | hv
              · exact Or.inr (Or.inr (Or.inr (Or.inl ⟨ho3, hs⟩)))
              · exact Or.inr (Or.inr (Or.inl ⟨_, hv⟩))
            · rw [if_neg ho3] at h
              by_cases ho4 : p.operation = "findFiles"
              · rw [if_pos ho4] at h
                exact Or.inr (Or.inr (Or.inl ⟨_, findFilesOp_error h⟩))
              · rw [if_neg ho4] at h
                by_cases ho5 : p.operation = "fileInfo"
                · rw [if_pos ho5] at h
                  exact Or.inr (Or.inr (Or.inl ⟨_, fileInfoOp_error h⟩))
                · rw [if_neg ho5] at h
                  by_cases ho6 : p.operation = "tree"
                  · rw [if_pos ho6] at h
                    exact Or.inr (Or.inr (Or.inl ⟨_, treeOp_error h⟩))
                  · rw [if_neg ho6] at h
                    refine Or.inr (Or.inr (Or.inr (Or.inr ?_)))
                    simp [ho1, ho2, ho3, ho4, ho5, ho6]
      · rename_i hne
        refine Or.inr (Or.inl ?_)
        intro ch hcontra
        exact hne ch hcontra
  · intro fullPath hop hpne hval hlook hr ch hl
    simp only [executeOp, if_neg hr, hl]
    rw [hop]
    simp [readFileOp, hpne, hval, hlook]
  · intro fullPath hop hpne hval hlook hr ch hl
    simp only [executeOp, if_neg hr, hl]
    rw [hop]
    simp [fileInfoOp, hpne, hval, hlook]

/-- Instance of `execute_error_taxonomy`: `readFile` and `fileInfo` on a
missing path inside the root return not-found records (never an
error). -/
theorem execute_error_taxonomy_witness :
    executeOp (FSNode.dir [("repo", FSNode.dir [])]) (GrepOutcome.success "")
        { rootPath := "/repo", operation := "readFile", path := "missing.txt" } =
      Except.ok
        { operation := "readFile", path := "missing.txt", found := false,
          message := "File not found: missing.txt" } ∧
    executeOp (FSNode.dir [("repo", FSNode.dir [])]) (GrepOutcome.success "")
        { rootPath := "/repo", operation := "fileInfo", path := "missing.txt" } =
      Except.ok
        { operation := "fileInfo", path := "missing.txt", exists_ := false,
          message := "Path not found: missing.txt" } := by
  constructor
  · exact (execute_error_taxonomy (FSNode.dir [("repo", FSNode.dir [])])
      (GrepOutcome.success "")
      { rootPath := "/repo", operation := "readFile", path := "missing.txt" }).2.1
      "/repo/missing.txt" rfl (by decide) rfl rfl (by decide) [] rfl
  · exact (execute_error_taxonomy (FSNode.dir [("repo", FSNode.dir [])])
      (GrepOutcome.success "")
      { rootPath := "/repo", operation := "fileInfo", path := "missing.txt" }).2.2
      "/repo/missing.txt" rfl (by decide) rfl rfl (by decide) [] rfl
